import Mathlib

/-!
Verification development for the lodestar beacon state regenerator and the
validator persisted-keys backend.

The regenerator implementation behind the IStateRegenerator interface (src,
unnamed part 000) is not part of the provided sources: only the interface
declaration is. The definitions in namespace Regen are therefore modelled
from the specification text (sections 3 to 7 of the spec), as a sequential
shallow embedding: every operation returns its result together with the
updated cache state and counters of StateSource loads and Transitioner
invocations. Concurrency aspects (coalescing, cancellation) are out of reach
of this embedding and are not modelled; cache size bounds and LRU eviction
are likewise not modelled since no claim under check depends on them.

The definitions in namespace Keys are translated directly from
packages/cli/src/cmds/validator/keymanager/persistedKeys.ts.
-/

namespace Regen

/-- Slots per epoch: the mainnet phase0 constant used by the spec examples. -/
def SLOTS_PER_EPOCH : Nat := 32

/-- A beacon block as seen by the regenerator (spec section 3): slot,
parent root and the root of the post-state of the block. Roots are numbers. -/
structure Block where
  slot : Nat
  parentRoot : Nat
  stateRoot : Nat
deriving DecidableEq

/-- A cached beacon state, identified by its state root (spec section 3). -/
structure BeaconState where
  slot : Nat
  stateRoot : Nat
deriving DecidableEq

/-- Failure modes of the regenerator (spec section 7). Cancelled is a
concurrency-only outcome and never arises in this sequential embedding. -/
inductive RegenError where
  | unknownBlock
  | invalidSlot
  | stateNotAvailable
  | transitionError
deriving DecidableEq

/-- Modelled from the spec: the external collaborators of the regenerator
(BlockSource section 4.C, StateSource section 4.D, Transitioner section 4.E),
none of which are in the provided sources. transitionOk and blockOk decide
whether a Transitioner call succeeds; advanceRoot gives the state root
produced by advancing empty slots; interesting is the optional hook by which
the block processor marks state roots worth caching (section 4.F step 4 of
getPreState). -/
structure Env where
  getBlock : Nat → Option Block
  loadState : Nat → Option BeaconState
  transitionOk : Nat → Nat → Bool
  blockOk : Nat → Nat → Bool
  advanceRoot : Nat → Nat → Nat
  interesting : Nat → Bool

/-- The two caches of the regenerator: StateCache keyed by state root and
CheckpointStateCache keyed by (epoch, block root) (spec sections 4.A, 4.B). -/
structure RegenState where
  stateCache : List (Nat × BeaconState)
  cpCache : List ((Nat × Nat) × BeaconState)
deriving DecidableEq

/-- The empty cache state. -/
def rs0 : RegenState := ⟨[], []⟩

/-- StateCache.get. -/
def scGet (rs : RegenState) (r : Nat) : Option BeaconState :=
  (rs.stateCache.find? (fun p => p.1 = r)).map (fun p => p.2)

/-- StateCache.put: keyed by the state root of the inserted state
(spec invariant 1, section 3). -/
def scPut (rs : RegenState) (s : BeaconState) : RegenState :=
  { rs with stateCache := (s.stateRoot, s) :: rs.stateCache.filter (fun p => ¬ p.1 = s.stateRoot) }

/-- CheckpointStateCache.get. -/
def cpGet (rs : RegenState) (e b : Nat) : Option BeaconState :=
  (rs.cpCache.find? (fun p => p.1 = (e, b))).map (fun p => p.2)

/-- CheckpointStateCache.put. -/
def cpPut (rs : RegenState) (e b : Nat) (s : BeaconState) : RegenState :=
  { rs with cpCache := ((e, b), s) :: rs.cpCache.filter (fun p => ¬ p.1 = (e, b)) }

/-- Modelled from the spec: Transitioner.processSlots (section 4.E), an
external collaborator. Requires targetSlot at least the state slot; advancing
zero slots returns the state unchanged; otherwise the outcome is decided by
the environment, a success producing a state at the target slot. -/
def processSlots (env : Env) (s : BeaconState) (target : Nat) : Except RegenError BeaconState :=
  if target < s.slot then .error .transitionError
  else if target = s.slot then .ok s
  else if env.transitionOk s.stateRoot target then
    .ok { slot := target, stateRoot := env.advanceRoot s.stateRoot target }
  else .error .transitionError

/-- Modelled from the spec: Transitioner.processBlock (section 4.E). The
state must already sit at the slot of the block; a success yields the
post-state of the block, whose root is the stateRoot the block carries
(a state-root mismatch is a TransitionError). -/
def processBlock (env : Env) (s : BeaconState) (b : Block) : Except RegenError BeaconState :=
  if s.slot = b.slot ∧ env.blockOk s.stateRoot b.stateRoot then
    .ok { slot := b.slot, stateRoot := b.stateRoot }
  else .error .transitionError

deriving instance DecidableEq for Except

/-- Outcome of a regenerator query: the result, the cache state after the
query, and how many StateSource loads and Transitioner invocations ran. -/
structure Outcome where
  res : Except RegenError BeaconState
  rs : RegenState
  loads : Nat
  trans : Nat
deriving DecidableEq

/-- Modelled from the spec: Regenerator.getState (section 4.F); the
implementation behind the IStateRegenerator interface is not in the provided
sources. A StateCache hit returns the cached state without touching
StateSource or the Transitioner; otherwise the state is cold-loaded, inserted
into the StateCache on success, and absence fails with StateNotAvailable. -/
def getState (env : Env) (rs : RegenState) (r : Nat) : Outcome :=
  match scGet rs r with
  | some s => ⟨.ok s, rs, 0, 0⟩
  | none =>
    match env.loadState r with
    | some s => ⟨.ok s, scPut rs s, 1, 0⟩
    | none => ⟨.error .stateNotAvailable, rs, 1, 0⟩

/-- Stage of getBlockSlotState after the base state was requested: advance
the base by processSlots and insert the result into the CheckpointStateCache
exactly when it lands on an epoch boundary. -/
def afterBase (env : Env) (b slot : Nat) (o : Outcome) : Outcome :=
  match o.res with
  | .error _ => o
  | .ok base =>
    match processSlots env base slot with
    | .error e => ⟨.error e, o.rs, o.loads, o.trans + 1⟩
    | .ok s =>
      ⟨.ok s, if slot % SLOTS_PER_EPOCH = 0 then cpPut o.rs (slot / SLOTS_PER_EPOCH) b s else o.rs,
        o.loads, o.trans + 1⟩

/-- Modelled from the spec: Regenerator.getBlockSlotState (section 4.F).
Unknown block roots fail with UnknownBlock; a slot below the block slot fails
with InvalidSlot; otherwise the base state of the block is obtained through
getState and advanced to the requested slot. -/
def getBlockSlotState (env : Env) (rs : RegenState) (b slot : Nat) : Outcome :=
  match env.getBlock b with
  | none => ⟨.error .unknownBlock, rs, 0, 0⟩
  | some blk =>
    if slot < blk.slot then ⟨.error .invalidSlot, rs, 0, 0⟩
    else afterBase env b slot (getState env rs blk.stateRoot)

/-- Stage of getCheckpointState after the block-slot state was requested:
cache a successful result under the checkpoint key. -/
def afterCp (e b : Nat) (o : Outcome) : Outcome :=
  match o.res with
  | .error _ => o
  | .ok s => ⟨.ok s, cpPut o.rs e b s, o.loads, o.trans⟩

/-- Modelled from the spec: Regenerator.getCheckpointState (section 4.F).
A CheckpointStateCache hit returns at once; otherwise the state of the block
advanced to the first slot of the epoch is computed and cached. -/
def getCheckpointState (env : Env) (rs : RegenState) (e b : Nat) : Outcome :=
  match cpGet rs e b with
  | some s => ⟨.ok s, rs, 0, 0⟩
  | none => afterCp e b (getBlockSlotState env rs b (e * SLOTS_PER_EPOCH))

/-- Modelled from the spec: BlockSource.getAncestors (section 4.C): the chain
from a block root down to and including the first ancestor at or below
stopSlot, paired with the root of each block. The fuel bounds the walk; for a
well-formed tree (slots strictly decrease toward the parent) a fuel above the
starting slot suffices, and an exhausted fuel reports no result. -/
def ancestors (env : Env) : Nat → Nat → Nat → Option (List (Nat × Block))
  | 0, _, _ => none
  | fuel + 1, root, stopSlot =>
    match env.getBlock root with
    | none => none
    | some b =>
      if b.slot ≤ stopSlot then some [(root, b)]
      else (ancestors env fuel b.parentRoot stopSlot).map (fun l => (root, b) :: l)

/-- A replay step result: outcome of the replay, cache state, count of
Transitioner invocations. -/
abbrev Replay := (Except RegenError BeaconState) × RegenState × Nat

/-- Add two Transitioner invocations (one processSlots, one processBlock) to
the count of a replay result. -/
def bump2 (r : Replay) : Replay := (r.1, r.2.1, r.2.2 + 2)

/-- Modelled from the spec: the replay loop of getPreState (section 4.F step
3 and 4): apply each block in ascending order by processSlots then
processBlock, inserting the post-block state into the StateCache when it
falls on an epoch boundary or its root is marked interesting. Returns the
final state, the cache state, and the count of Transitioner invocations. -/
def replayBlocks (env : Env) : List Block → BeaconState → RegenState → Replay
  | [], s, rs => (.ok s, rs, 0)
  | b :: rest, s, rs =>
    match processSlots env s b.slot with
    | .error e => (.error e, rs, 1)
    | .ok s1 =>
      match processBlock env s1 b with
      | .error e => (.error e, rs, 2)
      | .ok s2 =>
        bump2 (replayBlocks env rest s2
          (if b.slot % SLOTS_PER_EPOCH = 0 ∨ env.interesting b.stateRoot then scPut rs s2 else rs))

/-- Combine a replay result with the outcome that produced its anchor. -/
def withReplay (o : Outcome) (r : Replay) : Outcome :=
  ⟨r.1, r.2.1, o.loads, o.trans + r.2.2⟩

/-- Stage of getPreState after the anchor checkpoint state was requested:
replay the chain strictly above the anchor, in ascending order, up to and
including the parent of the queried block. -/
def afterAnchor (env : Env) (chain : List (Nat × Block)) (o : Outcome) : Outcome :=
  match o.res with
  | .error _ => o
  | .ok aState =>
    withReplay o (replayBlocks env ((chain.reverse.drop 1).map (fun p => p.2)) aState o.rs)

/-- Modelled from the spec: Regenerator.getPreState (section 4.F). Compute
the target epoch of the block, walk the ancestors of the parent down to the
first one at or below the epoch boundary, anchor at the checkpoint state of
(targetEpoch, anchor root), and replay the blocks strictly above the anchor
up to and including the parent. -/
def getPreState (env : Env) (rs : RegenState) (block : Block) : Outcome :=
  match env.getBlock block.parentRoot with
  | none => ⟨.error .unknownBlock, rs, 0, 0⟩
  | some parent =>
    match ancestors env (parent.slot + 1) block.parentRoot
        (block.slot / SLOTS_PER_EPOCH * SLOTS_PER_EPOCH) with
    | none => ⟨.error .unknownBlock, rs, 0, 0⟩
    | some chain =>
      match chain.getLast? with
      | none => ⟨.error .unknownBlock, rs, 0, 0⟩
      | some anchor =>
        afterAnchor env chain (getCheckpointState env rs (block.slot / SLOTS_PER_EPOCH) anchor.1)

/-- Well-formedness of the StateCache: every entry is keyed by the state root
of the state it holds (spec invariant 1, section 3). -/
def ScWF (rs : RegenState) : Prop :=
  ∀ p ∈ rs.stateCache, (p.2).stateRoot = p.1

/-- Well-formedness of the CheckpointStateCache: every entry under key (e, b)
holds a state whose slot is exactly e times SLOTS_PER_EPOCH (spec invariant
2, section 3). -/
def CpWF (rs : RegenState) : Prop :=
  ∀ p ∈ rs.cpCache, (p.2).slot = p.1.1 * SLOTS_PER_EPOCH

/-- Joint well-formedness of both caches. -/
def CacheWF (rs : RegenState) : Prop := ScWF rs ∧ CpWF rs

instance (rs : RegenState) : Decidable (ScWF rs) := by
  unfold ScWF; infer_instance

instance (rs : RegenState) : Decidable (CpWF rs) := by
  unfold CpWF; infer_instance

instance (rs : RegenState) : Decidable (CacheWF rs) := by
  unfold CacheWF; infer_instance

theorem processSlots_ok_slot (env : Env) (s s' : BeaconState) (target : Nat)
    (h : processSlots env s target = .ok s') : s'.slot = target := by
  unfold processSlots at h
  split at h
  · exact absurd h (by simp)
  split at h
  · next heq => cases h; exact heq.symm
  split at h
  · cases h; rfl
  · exact absurd h (by simp)

theorem processSlots_self (env : Env) (s : BeaconState) :
    processSlots env s s.slot = .ok s := by
  simp [processSlots]

theorem processBlock_ok (env : Env) (s s' : BeaconState) (b : Block)
    (h : processBlock env s b = .ok s') : s' = ⟨b.slot, b.stateRoot⟩ := by
  unfold processBlock at h
  split at h
  · cases h; rfl
  · exact absurd h (by simp)

theorem getState_res_ok (env : Env) (rs : RegenState) (r : Nat) (s : BeaconState)
    (h : (getState env rs r).res = .ok s) :
    scGet rs r = some s ∨ (scGet rs r = none ∧ env.loadState r = some s) := by
  unfold getState at h
  split at h
  · next t hg => simp at h; subst h; exact Or.inl hg
  · next hg =>
    split at h
    · next t hl => simp at h; subst h; exact Or.inr ⟨hg, hl⟩
    · simp at h

/-- C5: getState serves a StateCache hit directly, invoking neither
StateSource nor the Transitioner; on a miss it calls StateSource.loadState,
inserting the loaded state into the StateCache and returning it on success,
and failing with StateNotAvailable when persistent storage lacks the root. -/
theorem getState_spec (env : Env) (rs : RegenState) (r : Nat) :
    (∀ s, scGet rs r = some s → getState env rs r = ⟨.ok s, rs, 0, 0⟩) ∧
    (scGet rs r = none → ∀ s, env.loadState r = some s →
      getState env rs r = ⟨.ok s, scPut rs s, 1, 0⟩) ∧
    (scGet rs r = none → env.loadState r = none →
      getState env rs r = ⟨.error .stateNotAvailable, rs, 1, 0⟩) := by
  refine ⟨fun s hs => ?_, fun hn s hl => ?_, fun hn hl => ?_⟩
  · simp [getState, hs]
  · simp [getState, hn, hl]
  · simp [getState, hn, hl]

/-- C3: getBlockSlotState with a slot strictly below the slot of the block
fails with InvalidSlot and leaves the caches untouched. -/
theorem getBlockSlotState_invalidSlot (env : Env) (rs : RegenState) (b s : Nat) (blk : Block)
    (hb : env.getBlock b = some blk) (hs : s < blk.slot) :
    getBlockSlotState env rs b s = ⟨.error .invalidSlot, rs, 0, 0⟩ := by
  simp [getBlockSlotState, hb, hs]

theorem afterBase_error (env : Env) (b slot : Nat) (o : Outcome) (e : RegenError)
    (h : o.res = .error e) : afterBase env b slot o = o := by
  unfold afterBase; rw [h]

theorem afterBase_okself (env : Env) (b slot : Nat) (o : Outcome) (base : BeaconState)
    (h : o.res = .ok base) (hps : processSlots env base slot = .ok base) :
    (afterBase env b slot o).res = .ok base := by
  simp [afterBase, h, hps]

theorem afterBase_ok_slot (env : Env) (b slot : Nat) (o : Outcome) (s : BeaconState)
    (h : (afterBase env b slot o).res = .ok s) : s.slot = slot := by
  unfold afterBase at h
  split at h
  · next e heq => rw [heq] at h; simp at h
  · next base heq =>
    split at h
    · simp at h
    · next s2 hps => simp at h; subst h; exact processSlots_ok_slot env base s2 slot hps

theorem getBlockSlotState_ok_slot (env : Env) (rs : RegenState) (b slot : Nat) (s : BeaconState)
    (h : (getBlockSlotState env rs b slot).res = .ok s) : s.slot = slot := by
  unfold getBlockSlotState at h
  split at h
  · simp at h
  split at h
  · simp at h
  · exact afterBase_ok_slot env b slot _ s h

/-- C4: getBlockSlotState queried exactly at the slot of the block returns
the base state unchanged: the result equals what getState returns for the
stateRoot of the block, and any successful result is exactly the post-state
of the block (same stateRoot and slot, zero slots advanced). -/
theorem getBlockSlotState_at_block_slot (env : Env) (rs : RegenState) (b : Nat) (blk : Block)
    (hb : env.getBlock b = some blk)
    (hc : ∀ st, scGet rs blk.stateRoot = some st → st = ⟨blk.slot, blk.stateRoot⟩)
    (hl : ∀ st, env.loadState blk.stateRoot = some st → st = ⟨blk.slot, blk.stateRoot⟩) :
    (getBlockSlotState env rs b blk.slot).res = (getState env rs blk.stateRoot).res ∧
    ∀ s, (getBlockSlotState env rs b blk.slot).res = .ok s →
      s.stateRoot = blk.stateRoot ∧ s.slot = blk.slot := by
  have hbss : getBlockSlotState env rs b blk.slot
      = afterBase env b blk.slot (getState env rs blk.stateRoot) := by
    simp [getBlockSlotState, hb]
  cases hres : (getState env rs blk.stateRoot).res with
  | error e =>
    have heq : getBlockSlotState env rs b blk.slot = getState env rs blk.stateRoot := by
      rw [hbss]
      exact afterBase_error env b blk.slot _ e hres
    refine ⟨by rw [heq]; exact hres, fun s hsok => ?_⟩
    rw [heq, hres] at hsok
    simp at hsok
  | ok base =>
    have hbase : base = ⟨blk.slot, blk.stateRoot⟩ := by
      rcases getState_res_ok env rs blk.stateRoot base hres with hg | ⟨_, hlo⟩
      · exact hc base hg
      · exact hl base hlo
    have hps : processSlots env base blk.slot = .ok base := by
      rw [hbase]
      exact processSlots_self env ⟨blk.slot, blk.stateRoot⟩
    have hres2 : (afterBase env b blk.slot (getState env rs blk.stateRoot)).res = .ok base :=
      afterBase_okself _ _ _ _ _ hres hps
    constructor
    · rw [hbss, hres2]
    · intro s hsok
      rw [hbss, hres2] at hsok
      injection hsok with h
      subst h
      rw [hbase]
      exact ⟨rfl, rfl⟩

theorem scPut_scWF (rs : RegenState) (s : BeaconState) (h : ScWF rs) : ScWF (scPut rs s) := by
  intro p hp
  simp only [scPut, List.mem_cons, List.mem_filter] at hp
  rcases hp with hp | ⟨hp, _⟩
  · subst hp; rfl
  · exact h p hp

theorem scPut_cpWF (rs : RegenState) (s : BeaconState) (h : CpWF rs) : CpWF (scPut rs s) := h

theorem cpPut_cpWF (rs : RegenState) (e b : Nat) (s : BeaconState) (h : CpWF rs)
    (hs : s.slot = e * SLOTS_PER_EPOCH) : CpWF (cpPut rs e b s) := by
  intro p hp
  simp only [cpPut, List.mem_cons, List.mem_filter] at hp
  rcases hp with hp | ⟨hp, _⟩
  · subst hp; exact hs
  · exact h p hp

theorem cpPut_scWF (rs : RegenState) (e b : Nat) (s : BeaconState) (h : ScWF rs) :
    ScWF (cpPut rs e b s) := h

theorem getState_cacheWF (env : Env) (rs : RegenState) (r : Nat) (h : CacheWF rs) :
    CacheWF (getState env rs r).rs := by
  cases hg : scGet rs r with
  | some s => simp [getState, hg]; exact h
  | none =>
    cases hl : env.loadState r with
    | some s =>
      simp [getState, hg, hl]
      exact ⟨scPut_scWF rs s h.1, scPut_cpWF rs s h.2⟩
    | none => simp [getState, hg, hl]; exact h

theorem getState_cpWF (env : Env) (rs : RegenState) (r : Nat) (h : CpWF rs) :
    CpWF (getState env rs r).rs := by
  cases hg : scGet rs r with
  | some s => simp [getState, hg]; exact h
  | none =>
    cases hl : env.loadState r with
    | some s => simp [getState, hg, hl]; exact scPut_cpWF rs s h
    | none => simp [getState, hg, hl]; exact h

theorem afterBase_cacheWF (env : Env) (b slot : Nat) (o : Outcome) (h : CacheWF o.rs) :
    CacheWF (afterBase env b slot o).rs := by
  unfold afterBase
  split
  · exact h
  · next base hres =>
    cases hps : processSlots env base slot with
    | error e => simp; exact h
    | ok s =>
      simp only
      split
      · next hmod =>
        refine ⟨cpPut_scWF _ _ _ _ h.1, cpPut_cpWF _ _ _ _ h.2 ?_⟩
        rw [processSlots_ok_slot env base s slot hps]
        exact (Nat.div_mul_cancel (Nat.dvd_of_mod_eq_zero hmod)).symm
      · exact h

theorem afterBase_cpWF (env : Env) (b slot : Nat) (o : Outcome) (h : CpWF o.rs) :
    CpWF (afterBase env b slot o).rs := by
  unfold afterBase
  split
  · exact h
  · next base hres =>
    cases hps : processSlots env base slot with
    | error e => simp; exact h
    | ok s =>
      simp only
      split
      · next hmod =>
        refine cpPut_cpWF _ _ _ _ h ?_
        rw [processSlots_ok_slot env base s slot hps]
        exact (Nat.div_mul_cancel (Nat.dvd_of_mod_eq_zero hmod)).symm
      · exact h

theorem getBlockSlotState_cacheWF (env : Env) (rs : RegenState) (b slot : Nat) (h : CacheWF rs) :
    CacheWF (getBlockSlotState env rs b slot).rs := by
  unfold getBlockSlotState
  split
  · exact h
  · split
    · exact h
    · exact afterBase_cacheWF _ _ _ _ (getState_cacheWF _ _ _ h)

theorem getBlockSlotState_cpWF (env : Env) (rs : RegenState) (b slot : Nat) (h : CpWF rs) :
    CpWF (getBlockSlotState env rs b slot).rs := by
  unfold getBlockSlotState
  split
  · exact h
  · split
    · exact h
    · exact afterBase_cpWF _ _ _ _ (getState_cpWF _ _ _ h)

theorem afterCp_cacheWF (e b : Nat) (o : Outcome) (h : CacheWF o.rs)
    (hsl : ∀ s, o.res = .ok s → s.slot = e * SLOTS_PER_EPOCH) :
    CacheWF (afterCp e b o).rs := by
  unfold afterCp
  split
  · exact h
  · next s hres => exact ⟨cpPut_scWF _ _ _ _ h.1, cpPut_cpWF _ _ _ _ h.2 (hsl s hres)⟩

theorem afterCp_cpWF (e b : Nat) (o : Outcome) (h : CpWF o.rs)
    (hsl : ∀ s, o.res = .ok s → s.slot = e * SLOTS_PER_EPOCH) :
    CpWF (afterCp e b o).rs := by
  unfold afterCp
  split
  · exact h
  · next s hres => exact cpPut_cpWF _ _ _ _ h (hsl s hres)

theorem getCheckpointState_cacheWF (env : Env) (rs : RegenState) (e b : Nat) (h : CacheWF rs) :
    CacheWF (getCheckpointState env rs e b).rs := by
  unfold getCheckpointState
  split
  · exact h
  · exact afterCp_cacheWF _ _ _ (getBlockSlotState_cacheWF _ _ _ _ h)
      (fun s hs => getBlockSlotState_ok_slot _ _ _ _ _ hs)

theorem getCheckpointState_cpWF (env : Env) (rs : RegenState) (e b : Nat) (h : CpWF rs) :
    CpWF (getCheckpointState env rs e b).rs := by
  unfold getCheckpointState
  split
  · exact h
  · exact afterCp_cpWF _ _ _ (getBlockSlotState_cpWF _ _ _ _ h)
      (fun s hs => getBlockSlotState_ok_slot _ _ _ _ _ hs)

theorem cpGet_some (rs : RegenState) (e b : Nat) (s : BeaconState) (hwf : CpWF rs)
    (h : cpGet rs e b = some s) : s.slot = e * SLOTS_PER_EPOCH := by
  unfold cpGet at h
  cases hf : rs.cpCache.find? (fun p => p.1 = (e, b)) with
  | none => rw [hf] at h; simp at h
  | some p =>
    rw [hf] at h
    simp at h
    have hmem := List.mem_of_find?_eq_some hf
    have hkey : p.1 = (e, b) := by simpa using List.find?_some hf
    have hslot := hwf p hmem
    rw [← h, hslot, hkey]

/-- C1: any state returned by getCheckpointState for checkpoint (e, b) sits
exactly at slot e * SLOTS_PER_EPOCH, and every state retrievable from the
CheckpointStateCache afterwards likewise sits at the first slot of the epoch
of its key; in particular the slot of the result is a multiple of
SLOTS_PER_EPOCH. -/
theorem getCheckpointState_slot_multiple (env : Env) (rs : RegenState) (e b : Nat)
    (hwf : CpWF rs) :
    (∀ s, (getCheckpointState env rs e b).res = .ok s →
      s.slot = e * SLOTS_PER_EPOCH ∧ s.slot % SLOTS_PER_EPOCH = 0) ∧
    CpWF (getCheckpointState env rs e b).rs := by
  refine ⟨fun s hs => ?_, getCheckpointState_cpWF env rs e b hwf⟩
  have hslot : s.slot = e * SLOTS_PER_EPOCH := by
    unfold getCheckpointState at hs
    split at hs
    · next t ht =>
      simp at hs
      subst hs
      exact cpGet_some rs e b _ hwf ht
    · next ht =>
      unfold afterCp at hs
      split at hs
      · next e' heq => rw [heq] at hs; simp at hs
      · next t heq =>
        simp at hs
        subst hs
        exact getBlockSlotState_ok_slot env rs b _ _ heq
  exact ⟨hslot, by rw [hslot]; exact Nat.mul_mod_left e SLOTS_PER_EPOCH⟩

theorem replayBlocks_cons_ps_error (env : Env) (b : Block) (rest : List Block)
    (s : BeaconState) (rs : RegenState) (e : RegenError)
    (h : processSlots env s b.slot = .error e) :
    replayBlocks env (b :: rest) s rs = (.error e, rs, 1) := by
  simp [replayBlocks, h]

theorem replayBlocks_cons_pb_error (env : Env) (b : Block) (rest : List Block)
    (s : BeaconState) (rs : RegenState) (s1 : BeaconState) (e : RegenError)
    (hps : processSlots env s b.slot = .ok s1) (hpb : processBlock env s1 b = .error e) :
    replayBlocks env (b :: rest) s rs = (.error e, rs, 2) := by
  simp [replayBlocks, hps, hpb]

theorem replayBlocks_cons_ok (env : Env) (b : Block) (rest : List Block)
    (s : BeaconState) (rs : RegenState) (s1 s2 : BeaconState)
    (hps : processSlots env s b.slot = .ok s1) (hpb : processBlock env s1 b = .ok s2) :
    replayBlocks env (b :: rest) s rs = bump2 (replayBlocks env rest s2
      (if b.slot % SLOTS_PER_EPOCH = 0 ∨ env.interesting b.stateRoot then scPut rs s2 else rs)) := by
  simp [replayBlocks, hps, hpb]

theorem replayBlocks_cacheWF (env : Env) (l : List Block) (s : BeaconState) (rs : RegenState)
    (h : CacheWF rs) : CacheWF (replayBlocks env l s rs).2.1 := by
  induction l generalizing s rs with
  | nil => exact h
  | cons b rest ih =>
    cases hps : processSlots env s b.slot with
    | error e => rw [replayBlocks_cons_ps_error env b rest s rs e hps]; exact h
    | ok s1 =>
      cases hpb : processBlock env s1 b with
      | error e => rw [replayBlocks_cons_pb_error env b rest s rs s1 e hps hpb]; exact h
      | ok s2 =>
        rw [replayBlocks_cons_ok env b rest s rs s1 s2 hps hpb]
        show CacheWF (replayBlocks env rest s2
          (if b.slot % SLOTS_PER_EPOCH = 0 ∨ env.interesting b.stateRoot then scPut rs s2 else rs)).2.1
        split
        · exact ih s2 _ ⟨scPut_scWF _ _ h.1, scPut_cpWF _ _ h.2⟩
        · exact ih s2 _ h

theorem afterAnchor_cacheWF (env : Env) (chain : List (Nat × Block)) (o : Outcome)
    (h : CacheWF o.rs) : CacheWF (afterAnchor env chain o).rs := by
  unfold afterAnchor
  split
  · exact h
  · next aState hres => exact replayBlocks_cacheWF env _ aState o.rs h

theorem getPreState_cacheWF (env : Env) (rs : RegenState) (block : Block) (h : CacheWF rs) :
    CacheWF (getPreState env rs block).rs := by
  unfold getPreState
  split
  · exact h
  · split
    · exact h
    · split
      · exact h
      · exact afterAnchor_cacheWF _ _ _ (getCheckpointState_cacheWF _ _ _ _ h)

/-- C6 (amended): a failed query can leave entries installed by its
successful sub-queries, but no failed step installs its own partial result:
after each of the four operations, whether it succeeds or fails, every
StateCache entry is keyed by the stateRoot of the state it holds and every
CheckpointStateCache entry under key (e, b) holds a state at slot exactly
e * SLOTS_PER_EPOCH. -/
theorem regen_ops_preserve_cacheWF (env : Env) (rs : RegenState) (h : CacheWF rs)
    (r b slot e : Nat) (block : Block) :
    CacheWF (getState env rs r).rs ∧ CacheWF (getBlockSlotState env rs b slot).rs ∧
    CacheWF (getCheckpointState env rs e b).rs ∧ CacheWF (getPreState env rs block).rs :=
  ⟨getState_cacheWF env rs r h, getBlockSlotState_cacheWF env rs b slot h,
   getCheckpointState_cacheWF env rs e b h, getPreState_cacheWF env rs block h⟩

/-- A concrete environment: one block with root 1 at slot 0 whose post-state
(root 10, slot 0) is persisted; every transition succeeds and advancing the
root 10 to slot t yields root 10 * 1000 + t. -/
def envA : Env where
  getBlock := fun r => if r = 1 then some ⟨0, 0, 10⟩ else none
  loadState := fun r => if r = 10 then some ⟨0, 10⟩ else none
  transitionOk := fun _ _ => true
  blockOk := fun _ _ => true
  advanceRoot := fun r t => r * 1000 + t
  interesting := fun _ => false

/-- Same as envA except every nontrivial empty-slot transition fails with a
TransitionError. -/
def envB : Env := { envA with transitionOk := fun _ _ => false }

/-- A concrete two-block chain: root 1 is a block at slot 33 with parent
root 2 and post-state root 12; root 2 is a block at slot 0 with post-state
root 10, which is persisted. -/
def envC : Env where
  getBlock := fun r => if r = 1 then some ⟨33, 2, 12⟩ else if r = 2 then some ⟨0, 0, 10⟩ else none
  loadState := fun r => if r = 10 then some ⟨0, 10⟩ else none
  transitionOk := fun _ _ => true
  blockOk := fun _ _ => true
  advanceRoot := fun r t => r * 1000 + t
  interesting := fun _ => false

/-- C6 counterexample: a getBlockSlotState query that fails with a
TransitionError nonetheless changes the StateCache, because the inner
getState cold-loaded the base state into it before the Transitioner failed;
a failed query therefore does not leave both caches unchanged. -/
theorem regen_failed_query_mutates_cache :
    (getBlockSlotState envB rs0 1 5).res = .error .transitionError ∧
    (getBlockSlotState envB rs0 1 5).rs ≠ rs0 := by decide

theorem ancestors_ne_nil (env : Env) (f r st : Nat) (l : List (Nat × Block))
    (h : ancestors env f r st = some l) : l ≠ [] := by
  intro hnil
  subst hnil
  cases f with
  | zero => simp [ancestors] at h
  | succ f =>
    simp only [ancestors] at h
    cases hb : env.getBlock r with
    | none => simp only [hb] at h; simp at h
    | some b =>
      simp only [hb] at h
      split at h
      · simp at h
      · cases ha : ancestors env f b.parentRoot st with
        | none => simp only [ha, Option.map_none'] at h; simp at h
        | some l2 => simp only [ha, Option.map_some'] at h; simp at h

theorem ancestors_cons (env : Env) (f root stop : Nat) (p : Block)
    (hroot : env.getBlock root = some p) (hnle : ¬ p.slot ≤ stop) :
    ancestors env (f + 1) root stop
      = (ancestors env f p.parentRoot stop).map (fun l => (root, p) :: l) := by
  simp only [ancestors, hroot, if_neg hnle]

theorem replayBlocks_ok_last (env : Env) (l : List Block) (s0 : BeaconState) (rs : RegenState)
    (s : BeaconState) (b : Block)
    (hok : (replayBlocks env l s0 rs).1 = .ok s) (hlast : l.getLast? = some b) :
    s = ⟨b.slot, b.stateRoot⟩ := by
  induction l generalizing s0 rs with
  | nil => simp at hlast
  | cons c rest ih =>
    cases hps : processSlots env s0 c.slot with
    | error e => rw [replayBlocks_cons_ps_error env c rest s0 rs e hps] at hok; simp at hok
    | ok s1 =>
      cases hpb : processBlock env s1 c with
      | error e => rw [replayBlocks_cons_pb_error env c rest s0 rs s1 e hps hpb] at hok; simp at hok
      | ok s2 =>
        rw [replayBlocks_cons_ok env c rest s0 rs s1 s2 hps hpb] at hok
        cases rest with
        | nil =>
          have hs2 : s2 = s := by
            simp [replayBlocks, bump2] at hok
            exact hok
          have hc : c = b := by simpa using hlast
          rw [← hs2, ← hc]
          exact processBlock_ok env s1 s2 c hpb
        | cons d rest2 =>
          have hlast2 : (d :: rest2).getLast? = some b := by
            simpa using hlast
          exact ih s2 _ hok hlast2

theorem revdrop_last (c0 : Nat × Block) (tail : List (Nat × Block)) (hne : tail ≠ []) :
    (((c0 :: tail).reverse.drop 1).map (fun p => p.2)).getLast? = some c0.2 := by
  obtain ⟨t0, ts, hts⟩ := List.exists_cons_of_ne_nil (fun hr => hne (List.reverse_eq_nil_iff.mp hr))
  rw [List.reverse_cons, hts]
  simp

/-- C2 (amended): whenever the parent of the block is known to fork-choice
and the parent sits strictly above the epoch boundary of the target epoch of
the block (so the replay chain is nonempty), a successful getPreState
returns a state at the parent slot whose stateRoot is the post-state root of
the parent, that is the parent state root the block is built on. When the
parent sits at or below the boundary the result is instead the checkpoint
state at the boundary slot. -/
theorem getPreState_ok (env : Env) (rs : RegenState) (block parent : Block) (s : BeaconState)
    (hp : env.getBlock block.parentRoot = some parent)
    (hslot : block.slot / SLOTS_PER_EPOCH * SLOTS_PER_EPOCH < parent.slot)
    (hok : (getPreState env rs block).res = .ok s) :
    s.slot = parent.slot ∧ s.stateRoot = parent.stateRoot := by
  have hnle : ¬ parent.slot ≤ block.slot / SLOTS_PER_EPOCH * SLOTS_PER_EPOCH :=
    Nat.not_le.mpr hslot
  unfold getPreState at hok
  simp only [hp] at hok
  rw [ancestors_cons env parent.slot block.parentRoot _ parent hp hnle] at hok
  cases ha : ancestors env parent.slot parent.parentRoot
      (block.slot / SLOTS_PER_EPOCH * SLOTS_PER_EPOCH) with
  | none => simp only [ha, Option.map_none'] at hok; simp at hok
  | some tail =>
    simp only [ha, Option.map_some'] at hok
    have htne : tail ≠ [] := ancestors_ne_nil env parent.slot parent.parentRoot _ tail ha
    cases hgl : ((block.parentRoot, parent) :: tail).getLast? with
    | none => simp only [hgl] at hok; simp at hok
    | some anchor =>
      simp only [hgl] at hok
      unfold afterAnchor at hok
      cases hcp : (getCheckpointState env rs (block.slot / SLOTS_PER_EPOCH) anchor.1).res with
      | error e => simp [hcp] at hok
      | ok aState =>
        simp only [hcp, withReplay] at hok
        have hlastb :
            ((((block.parentRoot, parent) :: tail).reverse.drop 1).map
              (fun p => p.2)).getLast? = some parent :=
          revdrop_last (block.parentRoot, parent) tail htne
        have hs := replayBlocks_ok_last env _ aState _ s parent hok hlastb
        rw [hs]
        exact ⟨rfl, rfl⟩

/-- C2 counterexample: parent at slot 0, block at slot 32, so the target
epoch is 1 and the anchor is the parent itself; getPreState succeeds with
the checkpoint state at slot 32 and advanced root 10032, which is neither at
the parent slot 0 nor at the parent state root 10. -/
theorem getPreState_not_parent_slot :
    (getPreState envA rs0 ⟨32, 1, 11⟩).res = .ok ⟨32, 10032⟩ ∧
    envA.getBlock 1 = some ⟨0, 0, 10⟩ ∧
    ¬ ((32 : Nat) = 0 ∧ (10032 : Nat) = 10) := by decide

/-- Witness for C1 at a concrete input: the empty caches are well formed and
the checkpoint query (1, 1) against envA returns the state at slot 32. -/
theorem getCheckpointState_slot_multiple_witness :
    CpWF rs0 ∧ ((32 : Nat) = 1 * SLOTS_PER_EPOCH ∧ (32 : Nat) % SLOTS_PER_EPOCH = 0) :=
  ⟨by decide, (getCheckpointState_slot_multiple envA rs0 1 1 (by decide)).1 ⟨32, 10032⟩ (by decide)⟩

/-- Witness for the amended C2 at a concrete input: block at slot 34 on top
of a parent at slot 33 (above the boundary 32); getPreState succeeds with the
post-state of the parent. -/
theorem getPreState_ok_witness :
    envC.getBlock (Block.parentRoot ⟨34, 1, 13⟩) = some ⟨33, 2, 12⟩ ∧
    (34 : Nat) / SLOTS_PER_EPOCH * SLOTS_PER_EPOCH < 33 ∧
    (getPreState envC rs0 ⟨34, 1, 13⟩).res = .ok ⟨33, 12⟩ ∧
    ((33 : Nat) = 33 ∧ (12 : Nat) = 12) :=
  ⟨by decide, by decide, by decide,
   getPreState_ok envC rs0 ⟨34, 1, 13⟩ ⟨33, 2, 12⟩ ⟨33, 12⟩ (by decide) (by decide) (by decide)⟩

/-- Witness for C3 at a concrete input: the block with root 1 sits at slot
33 and the query at slot 32, one less, fails with InvalidSlot. -/
theorem getBlockSlotState_invalidSlot_witness :
    envC.getBlock 1 = some ⟨33, 2, 12⟩ ∧ (32 : Nat) < 33 ∧
    getBlockSlotState envC rs0 1 32 = ⟨.error .invalidSlot, rs0, 0, 0⟩ :=
  ⟨by decide, by decide,
   getBlockSlotState_invalidSlot envC rs0 1 32 ⟨33, 2, 12⟩ (by decide) (by decide)⟩

/-- Witness for C4 at a concrete input: querying the block with root 1 at
its own slot 0 returns the persisted post-state (root 10) unchanged. -/
theorem getBlockSlotState_at_block_slot_witness :
    envA.getBlock 1 = some ⟨0, 0, 10⟩ ∧
    (getBlockSlotState envA rs0 1 0).res = (getState envA rs0 10).res ∧
    ((10 : Nat) = 10 ∧ (0 : Nat) = 0) := by
  have h := getBlockSlotState_at_block_slot envA rs0 1 ⟨0, 0, 10⟩ (by decide)
    (fun st hst => by simp [scGet, rs0] at hst)
    (fun st hst => by
      simp [envA] at hst
      exact hst.symm)
  exact ⟨by decide, h.1, h.2 ⟨0, 10⟩ (by decide)⟩

/-- A cache state holding one state (root 5, slot 3), used as a witness. -/
def rsH : RegenState := ⟨[(5, ⟨3, 5⟩)], []⟩

/-- Witness for C5 at concrete inputs: a cache hit returns the cached state
with zero loads and zero Transitioner invocations, a cold load inserts and
returns, and an absent root fails with StateNotAvailable. -/
theorem getState_spec_witness :
    getState envA rsH 5 = ⟨.ok ⟨3, 5⟩, rsH, 0, 0⟩ ∧
    getState envA rs0 10 = ⟨.ok ⟨0, 10⟩, scPut rs0 ⟨0, 10⟩, 1, 0⟩ ∧
    getState envA rs0 7 = ⟨.error .stateNotAvailable, rs0, 1, 0⟩ :=
  ⟨(getState_spec envA rsH 5).1 ⟨3, 5⟩ (by decide),
   (getState_spec envA rs0 10).2.1 (by decide) ⟨0, 10⟩ (by decide),
   (getState_spec envA rs0 7).2.2 (by decide) (by decide)⟩

/-- Witness for the amended C6 at concrete inputs: against envB, whose
Transitioner always fails, all four operations still leave well-formed
caches. -/
theorem regen_ops_preserve_cacheWF_witness :
    CacheWF rs0 ∧
    (CacheWF (getState envB rs0 10).rs ∧ CacheWF (getBlockSlotState envB rs0 1 5).rs ∧
     CacheWF (getCheckpointState envB rs0 1 1).rs ∧
     CacheWF (getPreState envB rs0 ⟨32, 1, 11⟩).rs) :=
  ⟨by decide, regen_ops_preserve_cacheWF envB rs0 (by decide) 10 1 5 1 ⟨32, 1, 11⟩⟩

end Regen

namespace Keys

/-- A JSON value as far as the remote signer definition reader cares: the
un-trusted on-disk file can hold any JSON value in each field. -/
inductive JsonVal where
  | str (s : String)
  | num (n : Int)
  | jbool (b : Bool)
  | null
deriving DecidableEq

/-- The parsed JSON object of a remote signer definition file; fields hold
arbitrary JSON values since the file is un-trusted
(persistedKeys.ts readRemoteSignerDefinition). -/
structure StoredRemoteSigner where
  pubkey : JsonVal
  url : JsonVal
  readonly : JsonVal
deriving DecidableEq

/-- SignerDefinition as used by the keymanager API. -/
structure SignerDefinition where
  pubkey : String
  url : String
  readonly : Bool
deriving DecidableEq

/-- writeRemoteSignerDefinition (persistedKeys.ts lines 410 to 417): re-maps
all properties so extra ones are not persisted, always writing
readonly := false. The value written is the JSON object stored on disk. -/
def writeRemoteSignerDefinition (remoteSigner : SignerDefinition) : StoredRemoteSigner :=
  { pubkey := .str remoteSigner.pubkey, url := .str remoteSigner.url, readonly := .jbool false }

/-- readRemoteSignerDefinition (persistedKeys.ts lines 394 to 404): validates
that pubkey and url are strings, throwing otherwise, and re-maps only the
expected properties with readonly := false regardless of the stored value. -/
def readRemoteSignerDefinition (stored : StoredRemoteSigner) : Except String SignerDefinition :=
  match stored.pubkey with
  | .str p =>
    match stored.url with
    | .str u => .ok { pubkey := p, url := u, readonly := false }
    | _ => .error "invalid SignerDefinition.url"
  | _ => .error "invalid SignerDefinition.pubkey"

/-- C8: writing a remote signer definition and reading the file back yields
exactly the pubkey and url that were written with readonly false, whatever
readonly value was passed to the writer; moreover the reader returns
readonly false for every valid on-disk definition, regardless of the
readonly value stored in the file. -/
theorem remote_signer_roundtrip :
    (∀ (p u : String) (ro : Bool),
      readRemoteSignerDefinition (writeRemoteSignerDefinition ⟨p, u, ro⟩)
        = .ok ⟨p, u, false⟩) ∧
    (∀ (stored : StoredRemoteSigner) (d : SignerDefinition),
      readRemoteSignerDefinition stored = .ok d → d.readonly = false) := by
  constructor
  · intro p u ro
    rfl
  · intro stored d h
    unfold readRemoteSignerDefinition at h
    split at h
    · split at h
      · cases h; rfl
      · exact absurd h (by simp)
    · exact absurd h (by simp)

/-- Strings used in concrete witnesses. -/
def pkW : String := "0xab"

/-- A signer url used in concrete witnesses. -/
def urlW : String := "https://remote.signer"

/-- Witness for C8 at a concrete input: a definition written with
readonly := true reads back with readonly := false. -/
theorem remote_signer_roundtrip_witness :
    readRemoteSignerDefinition (writeRemoteSignerDefinition ⟨pkW, urlW, true⟩)
      = .ok ⟨pkW, urlW, false⟩ ∧
    SignerDefinition.readonly ⟨pkW, urlW, false⟩ = false :=
  ⟨remote_signer_roundtrip.1 pkW urlW true,
   remote_signer_roundtrip.2 (writeRemoteSignerDefinition ⟨pkW, urlW, true⟩) ⟨pkW, urlW, false⟩
     (remote_signer_roundtrip.1 pkW urlW true)⟩

/-- A flat model of the pieces of the filesystem writeKeystore touches:
files with contents, directories, and lockfile locks. mkdirSync with the
recursive flag is modelled as creating the single named directory. -/
structure FS where
  files : List (String × String)
  dirs : List String
  locks : List String
deriving DecidableEq

/-- fs.existsSync: the path names an existing file or directory. -/
def FS.existsSync (fs : FS) (p : String) : Bool :=
  (fs.files.find? (fun q => q.1 = p)).isSome || fs.dirs.contains p

/-- writeFile600Perm: create or overwrite a file. -/
def FS.writeFile600Perm (fs : FS) (p c : String) : FS :=
  { fs with files := (p, c) :: fs.files.filter (fun q => ¬ q.1 = p) }

/-- fs.mkdirSync. -/
def FS.mkdir (fs : FS) (p : String) : FS :=
  if fs.dirs.contains p then fs else { fs with dirs := p :: fs.dirs }

/-- lockFilepath. -/
def FS.lock (fs : FS) (p : String) : FS :=
  if fs.locks.contains p then fs else { fs with locks := p :: fs.locks }

/-- The four base directories handed to PersistedKeysBackend. -/
structure PathArgs where
  keystoresDir : String
  secretsDir : String
  remoteKeysDir : String
  proposerDir : String

/-- path.join of two segments. -/
def pathJoin (a b : String) : String := a ++ "/" ++ b

/-- The name of the keystore file inside the per-validator directory. -/
def votingKeystoreFileName : String := "voting-keystore.json"

/-- The per-validator paths (persistedKeys.ts getValidatorPaths, without the
proposer path which writeKeystore does not use). -/
structure ValidatorPaths where
  dirpath : String
  keystoreFilepath : String
  passphraseFilepath : String

def getValidatorPaths (paths : PathArgs) (pubkey : String) : ValidatorPaths :=
  { dirpath := pathJoin paths.keystoresDir pubkey,
    keystoreFilepath := pathJoin (pathJoin paths.keystoresDir pubkey) votingKeystoreFileName,
    passphraseFilepath := pathJoin paths.secretsDir pubkey }

/-- The parts of Keystore.parse and getPubkeyHexFromKeystore the backend
relies on: extracting the pubkey hex from a keystore string, with none
modelling a validation throw. -/
structure KeystoreEnv where
  parsePubkey : String → Option String

/-- The named arguments of writeKeystore. -/
structure WriteKeystoreArgs where
  keystoreStr : String
  password : String
  lockBeforeWrite : Bool
  persistIfDuplicate : Bool

/-- PersistedKeysBackend.writeKeystore (persistedKeys.ts lines 181 to 218):
validate and extract the pubkey, return false without touching anything when
the keystore file already exists and duplicates are not persisted, else make
the secrets and validator directories, optionally lock the keystore path,
write the keystore and the passphrase file, and return true. A parse throw
is the none result. -/
def writeKeystore (env : KeystoreEnv) (paths : PathArgs) (fs : FS) (args : WriteKeystoreArgs) :
    Option (Bool × FS) :=
  match env.parsePubkey args.keystoreStr with
  | none => none
  | some pubkeyHex =>
    let vp := getValidatorPaths paths pubkeyHex
    if !args.persistIfDuplicate && fs.existsSync vp.keystoreFilepath then some (false, fs)
    else
      let fs1 := (fs.mkdir paths.secretsDir).mkdir vp.dirpath
      let fs2 := if args.lockBeforeWrite then fs1.lock vp.keystoreFilepath else fs1
      let fs3 := (fs2.writeFile600Perm vp.keystoreFilepath args.keystoreStr).writeFile600Perm
        vp.passphraseFilepath args.password
      some (true, fs3)

/-- C9: when persistIfDuplicate is false and the keystore file for the
pubkey of the keystore already exists, writeKeystore returns false and the
filesystem is unchanged: no directory is created, no lock is taken, and
neither the keystore file nor the passphrase file is written. -/
theorem writeKeystore_duplicate_noop (env : KeystoreEnv) (paths : PathArgs) (fs : FS)
    (args : WriteKeystoreArgs) (pubkeyHex : String)
    (hp : env.parsePubkey args.keystoreStr = some pubkeyHex)
    (hdup : args.persistIfDuplicate = false)
    (hex : fs.existsSync (getValidatorPaths paths pubkeyHex).keystoreFilepath = true) :
    writeKeystore env paths fs args = some (false, fs) := by
  simp [writeKeystore, hp, hdup, hex]

/-- Paths used in the C9 witness. -/
def pathsW : PathArgs :=
  { keystoresDir := "keystores", secretsDir := "secrets", remoteKeysDir := "remoteKeys",
    proposerDir := "proposer" }

/-- A filesystem already holding the keystore file for pubkey pkW. -/
def fsW : FS :=
  { files := [((getValidatorPaths pathsW pkW).keystoreFilepath, "old")], dirs := [], locks := [] }

/-- A parser that maps every keystore string to the pubkey pkW. -/
def keystoreEnvW : KeystoreEnv := ⟨fun _ => some pkW⟩

/-- The writeKeystore arguments used in the C9 witness. -/
def argsW : WriteKeystoreArgs :=
  { keystoreStr := "ks", password := "pw", lockBeforeWrite := true, persistIfDuplicate := false }

/-- Witness for C9 at a concrete input: with the keystore file already on
disk and persistIfDuplicate false, writeKeystore returns false and the
filesystem value is returned unchanged. -/
theorem writeKeystore_duplicate_noop_witness :
    keystoreEnvW.parsePubkey argsW.keystoreStr = some pkW ∧
    argsW.persistIfDuplicate = false ∧
    fsW.existsSync (getValidatorPaths pathsW pkW).keystoreFilepath = true ∧
    writeKeystore keystoreEnvW pathsW fsW argsW = some (false, fsW) :=
  ⟨rfl, rfl, by decide,
   writeKeystore_duplicate_noop keystoreEnvW pathsW fsW argsW pkW rfl rfl (by decide)⟩

/-- One entry of the list handed to batchKeystores: the path of a keystore
file and the password protecting it. -/
structure LocalKeystoreDefinition where
  keystorePath : String
  password : String
deriving DecidableEq

/-- The part of the environment batchKeystores reads: readFileSync composed
with Keystore.parse, with none modelling a read or parse throw, which
rejects the whole batch. The lockFilepath call is wrapped in try/catch and
its failure ignored, so locking does not influence the result. -/
structure KsReadEnv where
  readKeystore : String → Option String

/-- JavaScript Map.set on an insertion-ordered association list: an existing
key keeps its position and gets the new value, a new key is appended. -/
def mapSet (m : List (String × String)) (k v : String) : List (String × String) :=
  if m.any (fun p => p.1 = k) then m.map (fun p => if p.1 = k then (k, v) else p)
  else m ++ [(k, v)]

/-- The loop of batchKeystores: each definition is read and inserted into
the map keyed by its password, in list order (the async bodies run
synchronously in creation order since they never await before the set). -/
def batchKeystoresGo (env : KsReadEnv) :
    List LocalKeystoreDefinition → List (String × String) → Option (List (String × String))
  | [], m => some m
  | d :: rest, m =>
    match env.readKeystore d.keystorePath with
    | none => none
    | some ks => batchKeystoresGo env rest (mapSet m d.password ks)

/-- batchKeystores (persistedKeys.ts lines 366 to 383): builds a Map from
password to keystore over all definitions. -/
def batchKeystores (env : KsReadEnv) (keystoreDefinitions : List LocalKeystoreDefinition) :
    Option (List (String × String)) :=
  batchKeystoresGo env keystoreDefinitions []

/-- The keys of an association-list map, in order. -/
def keysOf (m : List (String × String)) : List String := m.map (fun p => p.1)

theorem mapSet_keys (m : List (String × String)) (k v : String) :
    keysOf (mapSet m k v) = if k ∈ keysOf m then keysOf m else keysOf m ++ [k] := by
  have hany : (m.any (fun p => p.1 = k)) = true ↔ k ∈ keysOf m := by
    simp [List.any_eq_true, keysOf, List.mem_map]
  by_cases hk : k ∈ keysOf m
  · rw [if_pos hk]
    unfold mapSet
    rw [if_pos (hany.mpr hk)]
    unfold keysOf
    rw [List.map_map]
    refine List.map_congr_left (fun p _ => ?_)
    by_cases hp : p.1 = k
    · simp [hp]
    · simp [hp]
  · rw [if_neg hk]
    unfold mapSet
    rw [if_neg (fun hc => hk (hany.mp hc))]
    simp [keysOf]

theorem batchGo_keys (env : KsReadEnv) (defs : List LocalKeystoreDefinition)
    (m m' : List (String × String)) (h : batchKeystoresGo env defs m = some m')
    (hnd : (keysOf m).Nodup) :
    (keysOf m').toFinset
      = (keysOf m).toFinset ∪ (defs.map (fun d => d.password)).toFinset ∧
    (keysOf m').Nodup := by
  induction defs generalizing m with
  | nil =>
    simp [batchKeystoresGo] at h
    subst h
    exact ⟨by simp, hnd⟩
  | cons d rest ih =>
    simp only [batchKeystoresGo] at h
    cases hr : env.readKeystore d.keystorePath with
    | none =>
      simp only [hr] at h
      exact absurd h (by simp)
    | some ks =>
      simp only [hr] at h
      have hnd2 : (keysOf (mapSet m d.password ks)).Nodup := by
        rw [mapSet_keys]
        split
        · exact hnd
        · next hk =>
          rw [List.nodup_append]
          exact ⟨hnd, List.nodup_singleton _,
            fun a ha hb => hk (by rw [List.mem_singleton] at hb; rw [← hb]; exact ha)⟩
      obtain ⟨hset, hnd'⟩ := ih _ h hnd2
      refine ⟨?_, hnd'⟩
      rw [hset, mapSet_keys]
      split
      · next hk =>
        ext a
        simp only [Finset.mem_union, List.mem_toFinset, List.map_cons, List.mem_cons]
        constructor
        · rintro (h1 | h1)
          · exact Or.inl h1
          · exact Or.inr (Or.inr h1)
        · rintro (h1 | h1 | h1)
          · exact Or.inl h1
          · subst h1; exact Or.inl hk
          · exact Or.inr h1
      · ext a
        simp only [Finset.mem_union, List.mem_toFinset, List.mem_append, List.map_cons,
          List.mem_cons, List.mem_singleton]
        tauto

/-- C10: batchKeystores keys its result by password, so duplicated passwords
collapse: a successful result has pairwise distinct passwords as keys and
its size is exactly the number of distinct passwords among the input
definitions, which is at most, and can be strictly less than, their
number. -/
theorem batchKeystores_size (env : KsReadEnv) (defs : List LocalKeystoreDefinition)
    (m : List (String × String)) (h : batchKeystores env defs = some m) :
    m.length = (defs.map (fun d => d.password)).dedup.length ∧ (keysOf m).Nodup := by
  obtain ⟨hset, hnd⟩ := batchGo_keys env defs [] m h (by simp [keysOf])
  refine ⟨?_, hnd⟩
  calc m.length = (keysOf m).length := by simp [keysOf]
    _ = (keysOf m).toFinset.card := (List.toFinset_card_of_nodup hnd).symm
    _ = (defs.map (fun d => d.password)).toFinset.card := by rw [hset]; simp [keysOf]
    _ = (defs.map (fun d => d.password)).dedup.length := List.card_toFinset _

/-- An environment whose reads always succeed, returning the path itself as
the parsed keystore. -/
def ksReadEnvW : KsReadEnv := ⟨fun p => some p⟩

/-- Two keystore definitions sharing one password. -/
def defsDupW : List LocalKeystoreDefinition :=
  [{ keystorePath := "a", password := "pw" }, { keystorePath := "b", password := "pw" }]

/-- Witness for C10 at a concrete input: two definitions with the same
password produce a map of size one, strictly less than the two inputs. -/
theorem batchKeystores_size_witness :
    batchKeystores ksReadEnvW defsDupW = some [("pw", "b")] ∧
    (([("pw", "b")] : List (String × String)).length
        = (defsDupW.map (fun d => d.password)).dedup.length ∧
      (keysOf [("pw", "b")]).Nodup) ∧
    (defsDupW.map (fun d => d.password)).dedup.length < defsDupW.length :=
  ⟨by decide, batchKeystores_size ksReadEnvW defsDupW _ (by decide), by decide⟩

end Keys
